import Mathlib

/-!
Shallow embedding of the editing engine of the rust-editor repository
(src/buffer.rs and src/editor.rs), together with theorems settling the
frozen claims about its specification.

Modelling conventions:
* A text line is a list of characters; the buffer holds the list of lines.
* Rust machine integers are modelled as natural numbers.  An arithmetic
  operation that panics in Rust (u16 or usize subtraction below zero,
  u16 addition past 65535, a character removal or insertion at an invalid
  index inside the standard library) is modelled by returning none;
  an explicit saturating_sub is ordinary truncated Nat subtraction; an
  `as u16` cast is reduction modulo 65536.  usize additions are left
  unbounded, 64-bit overflow being out of reach of the editor.
* The stdout handle and all drawing code are external collaborators and
  are not part of the state.
* The undo stack (a Vec pushed and popped at the back) is modelled as a
  list whose head is the top of the stack.
-/

namespace RustEditor

/-- One modulus for every `as u16` cast in the source. -/
def u16Mod : Nat := 65536

/-- The two editor modes (editor.rs, enum Mode). -/
inductive Mode where
  | normal
  | insert
deriving DecidableEq, Repr

/-- The action type (editor.rs, enum Action). -/
inductive Action where
  | Undo
  | Quit
  | MoveUp
  | MoveDown
  | MoveLeft
  | MoveRight
  | MoveToLineStart
  | MoveToLineEnd
  | PageUp
  | PageDown
  | InsertCharAtCursorPos (c : Char)
  | DeleteCharAtCursorPos
  | NewLine
  | EnterMode (m : Mode)
  | SetWaitingCmd (c : Char)
  | DeleteCurrentLine
  | InsertLineAt (y : Nat) (contents : Option (List Char))
  | MoveLineToViewportCenter
deriving DecidableEq, Repr

/-- The line buffer (buffer.rs, struct Buffer). -/
structure Buffer where
  file : Option (List Char)
  lines : List (List Char)
deriving DecidableEq, Repr

/-- buffer.rs, Buffer::get. -/
def Buffer.get (b : Buffer) (line : Nat) : Option (List Char) :=
  b.lines[line]?

/-- buffer.rs, Buffer::len. -/
def Buffer.len (b : Buffer) : Nat :=
  b.lines.length

/-- buffer.rs, Buffer::insert.  A missing row is a no-op; a column past the
end of the row makes the underlying character insertion panic (none). -/
def Buffer.insert (b : Buffer) (x y : Nat) (c : Char) : Option Buffer :=
  match b.lines[y]? with
  | none => some b
  | some line =>
      if line.length < x then none
      else some { b with lines := b.lines.set y (line.take x ++ [c] ++ line.drop x) }

/-- buffer.rs, Buffer::remove.  A missing row is a no-op; a column at or past
the end of the row makes the underlying character removal panic (none). -/
def Buffer.remove (b : Buffer) (x y : Nat) : Option Buffer :=
  match b.lines[y]? with
  | none => some b
  | some line =>
      if line.length ≤ x then none
      else some { b with lines := b.lines.set y (line.take x ++ line.drop (x + 1)) }

/-- buffer.rs, Buffer::remove_line. -/
def Buffer.remove_line (b : Buffer) (line : Nat) : Buffer :=
  if line < b.len then { b with lines := b.lines.take line ++ b.lines.drop (line + 1) }
  else b

/-- buffer.rs, Buffer::insert_line. -/
def Buffer.insert_line (b : Buffer) (y : Nat) (contents : List Char) : Buffer :=
  if y < b.len then { b with lines := b.lines.take y ++ [contents] ++ b.lines.drop y }
  else b

/-- The editor state (editor.rs, struct Editor), without the stdout handle.
size1 and size2 are the two components of the stored terminal size. -/
structure Editor where
  buffer : Buffer
  size1 : Nat
  size2 : Nat
  vtop : Nat
  vleft : Nat
  cx : Nat
  cy : Nat
  mode : Mode
  waiting_command : Option Char
  undo_actions : List Action
deriving DecidableEq, Repr

/-- editor.rs, Editor::new (the state part: zero offsets and cursor,
normal mode, no pending command, empty undo stack). -/
def Editor.init (b : Buffer) (w h : Nat) : Editor :=
  { buffer := b
    size1 := w
    size2 := h
    vtop := 0
    vleft := 0
    cx := 0
    cy := 0
    mode := Mode.normal
    waiting_command := none
    undo_actions := [] }

/-- editor.rs, Editor::vwidth. -/
def Editor.vwidth (s : Editor) : Nat := s.size1

/-- editor.rs, Editor::vheight (the terminal height minus the two status
rows; the source computes this with u16 subtraction). -/
def Editor.vheight (s : Editor) : Nat := s.size2 - 2

/-- editor.rs, Editor::buffer_line. -/
def Editor.buffer_line (s : Editor) : Nat := s.vtop + s.cy

/-- editor.rs, Editor::viewport_line. -/
def Editor.viewport_line (s : Editor) (n : Nat) : Option (List Char) :=
  s.buffer.get (s.vtop + n)

/-- editor.rs, Editor::line_length (the byte length cast `as u16`). -/
def Editor.line_length (s : Editor) : Nat :=
  match s.viewport_line s.cy with
  | some line => line.length % u16Mod
  | none => 0

/-- editor.rs, Editor::current_line_contents. -/
def Editor.current_line_contents (s : Editor) : Option (List Char) :=
  s.buffer.get s.buffer_line

/-- First half of Editor::check_bounds: the two cursor-column clamps.
`self.cx = self.vwidth() - 1` underflows (none) when the width is zero. -/
def clampCx (e : Editor) : Option Editor :=
  let ll := e.line_length
  let cx1 := if ll ≤ e.cx then (if 0 < ll then ll - 1 else 0) else e.cx
  if e.vwidth ≤ cx1 then
    if e.vwidth = 0 then none else some { e with cx := e.vwidth - 1 }
  else some { e with cx := cx1 }

/-- Second half of Editor::check_bounds: the cursor-row clamp.  Evaluating
`self.buffer.len() - 1` underflows (none) on an empty buffer, and
`self.buffer.len() - self.vtop - 1` underflows (none) when the scroll
offset is at or past the buffer length; the store goes through `as u16`. -/
def clampCy (e : Editor) : Option Editor :=
  if e.buffer.len = 0 then none
  else
    let lineOnBuffer := e.cy + e.vtop
    if e.buffer.len - 1 < lineOnBuffer then
      if e.buffer.len ≤ e.vtop then none
      else some { e with cy := (e.buffer.len - e.vtop - 1) % u16Mod }
    else some e

/-- editor.rs, Editor::check_bounds: column clamps, then the row clamp. -/
def check_bounds (e : Editor) : Option Editor :=
  (clampCx e).bind clampCy

/-- editor.rs, Editor::execute, with explicit fuel for the recursion of
Undo through the popped action.  The fuel never runs out when the call
starts with fuel at least the undo-stack depth, because Undo pops exactly
one entry per recursive step; `execute` below supplies exactly that. -/
def executeAux : Nat → Editor → Action → Option Editor
  | fuel, s, a =>
    match a with
    | Action.Quit => some s
    | Action.MoveUp =>
        if s.cy = 0 then
          if 0 < s.vtop then some { s with vtop := s.vtop - 1 } else some s
        else some { s with cy := s.cy - 1 }
    | Action.MoveDown =>
        if s.cy + 1 < u16Mod then
          if s.vheight ≤ s.cy + 1 then
            some { s with vtop := s.vtop + 1, cy := s.cy + 1 - 1 }
          else some { s with cy := s.cy + 1 }
        else none
    | Action.MoveLeft =>
        let cx1 := s.cx - 1
        some { s with cx := if cx1 < s.vleft then s.vleft else cx1 }
    | Action.MoveRight =>
        if s.cx + 1 < u16Mod then some { s with cx := s.cx + 1 } else none
    | Action.MoveToLineStart => some { s with cx := 0 }
    | Action.MoveToLineEnd => some { s with cx := s.line_length - 1 }
    | Action.PageUp =>
        if 0 < s.vtop then some { s with vtop := s.vtop - s.vheight } else some s
    | Action.PageDown =>
        if s.vtop + s.vheight < s.buffer.len then
          some { s with vtop := s.vtop + s.vheight }
        else some s
    | Action.EnterMode m => some { s with mode := m }
    | Action.InsertCharAtCursorPos c =>
        (s.buffer.insert s.cx s.buffer_line c).bind fun b =>
          if s.cx + 1 < u16Mod then some { s with buffer := b, cx := s.cx + 1 }
          else none
    | Action.DeleteCharAtCursorPos =>
        (s.buffer.remove s.cx s.buffer_line).map fun b => { s with buffer := b }
    | Action.NewLine =>
        if s.cy + 1 < u16Mod then some { s with cx := 0, cy := s.cy + 1 } else none
    | Action.SetWaitingCmd c => some { s with waiting_command := some c }
    | Action.DeleteCurrentLine =>
        let line := s.buffer_line
        let contents := s.current_line_contents
        some { s with
                buffer := s.buffer.remove_line s.buffer_line
                undo_actions := Action.InsertLineAt line contents :: s.undo_actions }
    | Action.Undo =>
        match fuel, s.undo_actions with
        | _, [] => some s
        | Nat.succ f, u :: rest => executeAux f { s with undo_actions := rest } u
        | 0, _ :: _ => none
    | Action.InsertLineAt y contents =>
        match contents with
        | some c => some { s with buffer := s.buffer.insert_line y c, cy := y % u16Mod }
        | none => some s
    | Action.MoveLineToViewportCenter =>
        let viewport_center := s.vheight / 2
        let distance_to_center : Int := (s.cy : Int) - (viewport_center : Int)
        if 0 < distance_to_center then
          let d := distance_to_center.natAbs
          if d < s.vtop then some { s with vtop := s.vtop + d, cy := viewport_center }
          else some s
        else if distance_to_center < 0 then
          let d := distance_to_center.natAbs
          let new_vtop := s.vtop - d
          let distance_to_go := s.vtop + d
          if distance_to_go < s.buffer.len ∧ new_vtop ≠ s.vtop then
            some { s with vtop := new_vtop, cy := viewport_center }
          else some s
        else some s

/-- editor.rs, Editor::execute: the undo-stack depth bounds the recursion
depth, so it is a sufficient fuel. -/
def execute (s : Editor) (a : Action) : Option Editor :=
  executeAux s.undo_actions.length s a

/-- One input cycle restricted to the action executor and the bounds pass
(editor.rs, Editor::run executes the action and then check_bounds runs at
the top of the next loop iteration, before the next event). -/
def stepMove (s : Editor) (a : Action) : Option Editor :=
  (execute s a).bind check_bounds

/-- A finite sequence of actions, each followed by the bounds pass. -/
def stepMoves (s : Editor) (ms : List Action) : Option Editor :=
  List.foldlM stepMove s ms

/-- The key codes the dispatcher distinguishes (crossterm KeyCode, reduced
to the constructors the source matches on, plus a catch-all). -/
inductive KeyCode where
  | char (c : Char)
  | up
  | down
  | left
  | right
  | esc
  | enter
  | home
  | endKey
  | pageUp
  | pageDown
  | otherKey
deriving DecidableEq, Repr

/-- Key modifiers: the source only tests whether the modifier set is
exactly CONTROL. -/
inductive KeyModifiers where
  | noMods
  | control
  | shiftMod
  | altMod
deriving DecidableEq, Repr

/-- Input events (crossterm Event, reduced to what the source matches). -/
inductive Event where
  | key (code : KeyCode) (modifiers : KeyModifiers)
  | resize (w h : Nat)
  | otherEvent
deriving DecidableEq, Repr

/-- editor.rs, Editor::handle_waiting_command.  The source matches the
pending character and then the key literal; literal matching on characters
is written here as equality tests. -/
def handle_waiting_command (cmd : Char) (ev : Event) : Option Action :=
  if cmd = 'd' then
    match ev with
    | Event.key (KeyCode.char c) _ =>
        if c = 'd' then some Action.DeleteCurrentLine else none
    | _ => none
  else if cmd = 'g' then
    match ev with
    | Event.key (KeyCode.char c) _ =>
        if c = 'g' then some Action.MoveLineToViewportCenter else none
    | _ => none
  else none

/-- The plain navigation keymap: the big match of Editor::handle_normal_event
that runs when no command is pending. -/
def normalKeymap (ev : Event) : Option Action :=
  match ev with
  | Event.key code modifiers =>
      match code with
      | KeyCode.char 'q' => some Action.Quit
      | KeyCode.char 'u' => some Action.Undo
      | KeyCode.up => some Action.MoveUp
      | KeyCode.char 'k' => some Action.MoveUp
      | KeyCode.down => some Action.MoveDown
      | KeyCode.char 'j' => some Action.MoveDown
      | KeyCode.left => some Action.MoveLeft
      | KeyCode.char 'h' => some Action.MoveLeft
      | KeyCode.right => some Action.MoveRight
      | KeyCode.char 'l' => some Action.MoveRight
      | KeyCode.char 'i' => some (Action.EnterMode Mode.insert)
      | KeyCode.char '0' => some Action.MoveToLineStart
      | KeyCode.home => some Action.MoveToLineStart
      | KeyCode.char '$' => some Action.MoveToLineEnd
      | KeyCode.endKey => some Action.MoveToLineEnd
      | KeyCode.char 'b' =>
          if modifiers = KeyModifiers.control then some Action.PageUp else none
      | KeyCode.pageUp =>
          if modifiers = KeyModifiers.control then some Action.PageUp else none
      | KeyCode.char 'f' =>
          if modifiers = KeyModifiers.control then some Action.PageDown else none
      | KeyCode.pageDown =>
          if modifiers = KeyModifiers.control then some Action.PageDown else none
      | KeyCode.char 'x' => some Action.DeleteCharAtCursorPos
      | KeyCode.char 'd' => some (Action.SetWaitingCmd 'd')
      | KeyCode.char 'g' => some (Action.SetWaitingCmd 'g')
      | _ => none
  | _ => none

/-- editor.rs, Editor::handle_normal_event: a pending command is cleared
and resolved through handle_waiting_command; otherwise the plain keymap
runs.  Returns the updated editor state and the produced action. -/
def handle_normal_event (e : Editor) (ev : Event) : Editor × Option Action :=
  match e.waiting_command with
  | some cmd => ({ e with waiting_command := none }, handle_waiting_command cmd ev)
  | none => (e, normalKeymap ev)

/-- editor.rs, Editor::handle_insert_event. -/
def handle_insert_event (ev : Event) : Option Action :=
  match ev with
  | Event.key (KeyCode.esc) _ => some (Action.EnterMode Mode.normal)
  | Event.key (KeyCode.enter) _ => some Action.NewLine
  | Event.key (KeyCode.char c) _ => some (Action.InsertCharAtCursorPos c)
  | _ => none

/-- The length, without any cast, of the line the cursor currently sits on
(the empty line when the absolute row is past the buffer). -/
def Editor.trueLineLen (s : Editor) : Nat :=
  ((s.buffer.get s.buffer_line).getD []).length

/-- The re-centering step of Editor::execute, restated on the four numbers
it reads (scroll offset, cursor row, viewport height, buffer line count),
returning the new scroll offset and cursor row.  The scroll-down guard is
the source's literal condition: the buffer line count exceeds the current
offset plus the distance to the center. -/
def recenterCode (vtop cy vh len : Nat) : Nat × Nat :=
  let center := vh / 2
  let delta : Int := (cy : Int) - (center : Int)
  if 0 < delta then
    if delta.natAbs < vtop then (vtop + delta.natAbs, center) else (vtop, cy)
  else if delta < 0 then
    if vtop + delta.natAbs < len ∧ vtop - delta.natAbs ≠ vtop then
      (vtop - delta.natAbs, center)
    else (vtop, cy)
  else (vtop, cy)

/-- Modelled from the spec: the re-centering algorithm as the specification
words it.  It differs from recenterCode only in the scroll-down guard,
which the spec states as: the buffer has enough lines to fill the viewport
from the candidate offset (candidate + viewport height within the line
count). -/
def recenterClaim (vtop cy vh len : Nat) : Nat × Nat :=
  let center := vh / 2
  let delta : Int := (cy : Int) - (center : Int)
  if 0 < delta then
    if delta.natAbs < vtop then (vtop + delta.natAbs, center) else (vtop, cy)
  else if delta < 0 then
    if (vtop - delta.natAbs) + vh ≤ len ∧ vtop - delta.natAbs ≠ vtop then
      (vtop - delta.natAbs, center)
    else (vtop, cy)
  else (vtop, cy)

/-- A three-line buffer used by concrete states below. -/
def bufABC : Buffer := { file := none, lines := [['a'], ['b'], ['c']] }

/-- A two-line buffer used by concrete states below. -/
def bufAB : Buffer := { file := none, lines := [['a'], ['b']] }

/-- A one-line buffer used by concrete states below. -/
def bufA : Buffer := { file := none, lines := [['a']] }

/-- Concrete state for the C1 counterexample: scrolled one line down,
cursor on viewport row 1, hence on the last buffer line (absolute row 2). -/
def cexC1 : Editor :=
  { buffer := bufABC
    size1 := 10, size2 := 10, vtop := 1, vleft := 0, cx := 0, cy := 1
    mode := Mode.normal, waiting_command := none, undo_actions := [] }

/-- Concrete state for the C3 code bug: a buffer holding one empty line,
cursor at the origin. -/
def cexC3 : Editor :=
  { buffer := { file := none, lines := [[]] }
    size1 := 10, size2 := 10, vtop := 0, vleft := 0, cx := 0, cy := 0
    mode := Mode.normal, waiting_command := none, undo_actions := [] }

/-- Concrete state for the C4 counterexample: viewport height 10, cursor
two rows above the center, scrolled to offset 12 in a 16-line buffer. -/
def cexC4 : Editor :=
  { buffer := { file := none, lines := List.replicate 16 ['a'] }
    size1 := 80, size2 := 12, vtop := 12, vleft := 0, cx := 0, cy := 2
    mode := Mode.normal, waiting_command := none, undo_actions := [] }

/-- Concrete state for the C8 witness: a pending d leader. -/
def witC8 : Editor :=
  { Editor.init bufABC 10 10 with waiting_command := some 'd' }

/-- Concrete state for the C9 witness: three lines in a viewport of
height 8, scrolled offset 2, cursor above the center. -/
def witC9 : Editor :=
  { buffer := bufABC
    size1 := 10, size2 := 10, vtop := 2, vleft := 0, cx := 0, cy := 1
    mode := Mode.normal, waiting_command := none, undo_actions := [] }

/-- The first column clamp of check_bounds always succeeds on a positive
viewport width, and the resulting column is below the width, is zero on an
empty (or length-truncated-to-zero) line, and stays below a positive
(truncated) line length. -/
lemma clampCx_some (e : Editor) (hw : 1 ≤ e.size1) :
    ∃ x, clampCx e = some { e with cx := x } ∧ x < e.size1 ∧
      (e.line_length = 0 → x = 0) ∧ (0 < e.line_length → x < e.line_length) := by
  have hw0 : ¬ e.vwidth = 0 := by simp only [Editor.vwidth]; omega
  by_cases h1 : e.line_length ≤ e.cx
  · by_cases h2 : 0 < e.line_length
    · by_cases h3 : e.vwidth ≤ e.line_length - 1
      · refine ⟨e.vwidth - 1, ?_, ?_, ?_, ?_⟩
        · simp [clampCx, h1, h2, h3, hw0]
        · simp only [Editor.vwidth]; omega
        · omega
        · intro _; simp only [Editor.vwidth] at h3 ⊢; omega
      · refine ⟨e.line_length - 1, ?_, ?_, ?_, ?_⟩
        · simp [clampCx, h1, h2, h3]
        · simp only [Editor.vwidth] at h3; omega
        · omega
        · intro _; omega
    · by_cases h3 : e.vwidth ≤ 0
      · exact absurd (by simp only [Editor.vwidth] at h3 ⊢; omega : e.vwidth = 0) hw0
      · refine ⟨0, ?_, ?_, ?_, ?_⟩
        · simp [clampCx, h1, h2, h3]
        · simp only [Editor.vwidth] at h3; omega
        · intro _; rfl
        · omega
  · by_cases h3 : e.vwidth ≤ e.cx
    · refine ⟨e.vwidth - 1, ?_, ?_, ?_, ?_⟩
      · simp [clampCx, h1, h3, hw0]
      · simp only [Editor.vwidth]; omega
      · intro h0; omega
      · intro _; simp only [Editor.vwidth] at h3 ⊢; omega
    · refine ⟨e.cx, ?_, ?_, ?_, ?_⟩
      · simp [clampCx, h1, h3]
      · simp only [Editor.vwidth] at h3; omega
      · intro h0; omega
      · intro _; omega

/-- The row clamp of check_bounds succeeds whenever the scroll offset is
inside a non-empty buffer and the absolute row is at most the line count;
the clamped row never grows and lands the absolute row inside the buffer. -/
lemma clampCy_some (e : Editor) (hlen : 1 ≤ e.buffer.len) (hv : e.vtop < e.buffer.len)
    (hsum : e.vtop + e.cy ≤ e.buffer.len) (hcy16 : e.cy < u16Mod) :
    ∃ y, clampCy e = some { e with cy := y } ∧ y ≤ e.cy ∧
      e.vtop + y + 1 ≤ e.buffer.len := by
  unfold clampCy
  by_cases hclamp : e.buffer.len - 1 < e.cy + e.vtop
  · refine ⟨(e.buffer.len - e.vtop - 1) % u16Mod, ?_, ?_, ?_⟩
    · simp only [if_neg (by omega : ¬ e.buffer.len = 0), if_pos hclamp,
        if_neg (by omega : ¬ e.buffer.len ≤ e.vtop)]
    · rw [Nat.mod_eq_of_lt (by omega)]; omega
    · rw [Nat.mod_eq_of_lt (by omega)]; omega
  · exact ⟨e.cy, by simp only [if_neg (by omega : ¬ e.buffer.len = 0), if_neg hclamp], le_refl _, by omega⟩

/-- The row clamp is the identity when the absolute row is strictly inside
the buffer. -/
lemma clampCy_id (e : Editor) (hlen : 1 ≤ e.buffer.len)
    (hsum : e.vtop + e.cy + 1 ≤ e.buffer.len) :
    clampCy e = some e := by
  unfold clampCy
  rw [if_neg (by omega : ¬ e.buffer.len = 0), if_neg (by omega : ¬ e.buffer.len - 1 < e.cy + e.vtop)]

/-- check_bounds after a successful execute: vertical version. -/
lemma stepMove_vert (s e : Editor) (a : Action) (hex : execute s a = some e)
    (hw : 1 ≤ e.size1) (hlen : 1 ≤ e.buffer.len) (hv : e.vtop < e.buffer.len)
    (hsum : e.vtop + e.cy ≤ e.buffer.len) (hcy16 : e.cy < u16Mod) :
    ∃ x y, stepMove s a = some { e with cx := x, cy := y } ∧ y ≤ e.cy ∧
      e.vtop + y + 1 ≤ e.buffer.len := by
  obtain ⟨x, hx, _, _, _⟩ := clampCx_some e hw
  obtain ⟨y, hy, hyc, hys⟩ := clampCy_some { e with cx := x } hlen hv hsum hcy16
  refine ⟨x, y, ?_, hyc, hys⟩
  simp only [stepMove, hex, Option.some_bind, check_bounds, hx]
  exact hy

/-- check_bounds after a successful execute: horizontal version. -/
lemma stepMove_horiz (s e : Editor) (a : Action) (hex : execute s a = some e)
    (hw : 1 ≤ e.size1) (hlen : 1 ≤ e.buffer.len)
    (hsum : e.vtop + e.cy + 1 ≤ e.buffer.len) :
    ∃ x, stepMove s a = some { e with cx := x } ∧ x < e.size1 ∧
      (e.line_length = 0 → x = 0) ∧ (0 < e.line_length → x < e.line_length) := by
  obtain ⟨x, hx, h1, h2, h3⟩ := clampCx_some e hw
  refine ⟨x, ?_, h1, h2, h3⟩
  have hid : clampCy { e with cx := x } = some { e with cx := x } :=
    clampCy_id _ hlen hsum
  simp only [stepMove, hex, Option.some_bind, check_bounds, hx]
  exact hid

/-- Invariant preservation along a sequence of actions, each followed by
the bounds pass. -/
lemma stepMoves_inv {P : Editor → Prop} {ok : Action → Prop}
    (hstep : ∀ s a, P s → ok a → ∃ t, stepMove s a = some t ∧ P t) :
    ∀ ms s, (∀ a ∈ ms, ok a) → P s →
      ∃ t, stepMoves s ms = some t ∧ P t := by
  intro ms
  induction ms with
  | nil => exact fun s _ hP => ⟨s, rfl, hP⟩
  | cons a ms ih =>
      intro s hok hP
      obtain ⟨t, ht, hPt⟩ := hstep s a hP (hok a (List.mem_cons_self a ms))
      obtain ⟨u, hu, hPu⟩ := ih t (fun b hb => hok b (List.mem_cons_of_mem a hb)) hPt
      refine ⟨u, ?_, hPu⟩
      simp only [stepMoves, List.foldlM_cons, ht, Option.some_bind]
      exact hu

/-- One MoveUp or MoveDown followed by the bounds pass preserves the
vertical invariant. -/
lemma moveVert_step (b : Buffer) (w h : Nat) (hw : 1 ≤ w) (hh : 4 ≤ h) (hh2 : h ≤ 65535) :
    ∀ s a, (s.buffer = b ∧ s.size1 = w ∧ s.size2 = h ∧ s.cy + 2 < h ∧ s.vtop + s.cy < b.len) →
      (a = Action.MoveUp ∨ a = Action.MoveDown) →
      ∃ t, stepMove s a = some t ∧
        (t.buffer = b ∧ t.size1 = w ∧ t.size2 = h ∧ t.cy + 2 < h ∧ t.vtop + t.cy < b.len) := by
  rintro s a ⟨hb, hw1, hh1, hcy, hsum⟩ (rfl | rfl)
  · by_cases h0 : s.cy = 0
    · by_cases hv0 : 0 < s.vtop
      · have hex : execute s Action.MoveUp = some { s with vtop := s.vtop - 1 } := by
          simp [execute, executeAux, h0, hv0]
        have hlb : s.buffer.len = b.len := by rw [hb]
        obtain ⟨x, y, hst, hyc, hys⟩ := stepMove_vert s _ _ hex
          (show 1 ≤ s.size1 by omega) (show 1 ≤ s.buffer.len by omega)
          (show s.vtop - 1 < s.buffer.len by omega)
          (show (s.vtop - 1) + s.cy ≤ s.buffer.len by omega)
          (show s.cy < u16Mod by unfold u16Mod; omega)
        have hyc2 : y ≤ s.cy := hyc
        have hys2 : (s.vtop - 1) + y + 1 ≤ s.buffer.len := hys
        refine ⟨_, hst, hb, hw1, hh1, show y + 2 < h by omega,
          show (s.vtop - 1) + y < b.len by omega⟩
      · have hex : execute s Action.MoveUp = some s := by
          simp [execute, executeAux, h0, hv0]
        have hlb : s.buffer.len = b.len := by rw [hb]
        obtain ⟨x, y, hst, hyc, hys⟩ := stepMove_vert s _ _ hex
          (show 1 ≤ s.size1 by omega) (show 1 ≤ s.buffer.len by omega)
          (show s.vtop < s.buffer.len by omega)
          (show s.vtop + s.cy ≤ s.buffer.len by omega)
          (show s.cy < u16Mod by unfold u16Mod; omega)
        have hyc2 : y ≤ s.cy := hyc
        have hys2 : s.vtop + y + 1 ≤ s.buffer.len := hys
        refine ⟨_, hst, hb, hw1, hh1, show y + 2 < h by omega,
          show s.vtop + y < b.len by omega⟩
    · have hex : execute s Action.MoveUp = some { s with cy := s.cy - 1 } := by
        simp [execute, executeAux, h0]
      have hlb : s.buffer.len = b.len := by rw [hb]
      obtain ⟨x, y, hst, hyc, hys⟩ := stepMove_vert s _ _ hex
        (show 1 ≤ s.size1 by omega) (show 1 ≤ s.buffer.len by omega)
        (show s.vtop < s.buffer.len by omega)
        (show s.vtop + (s.cy - 1) ≤ s.buffer.len by omega)
        (show s.cy - 1 < u16Mod by unfold u16Mod; omega)
      have hyc2 : y ≤ s.cy - 1 := hyc
      have hys2 : s.vtop + y + 1 ≤ s.buffer.len := hys
      refine ⟨_, hst, hb, hw1, hh1, show y + 2 < h by omega,
        show s.vtop + y < b.len by omega⟩
  · have hg : s.cy + 1 < u16Mod := by unfold u16Mod; omega
    have hlb : s.buffer.len = b.len := by rw [hb]
    by_cases hvh : s.vheight ≤ s.cy + 1
    · have hvh2 : s.size2 - 2 ≤ s.cy + 1 := hvh
      have hcy1 : 1 ≤ s.cy := by omega
      have hex : execute s Action.MoveDown =
          some { s with vtop := s.vtop + 1, cy := s.cy + 1 - 1 } := by
        simp [execute, executeAux, hg, hvh]
      obtain ⟨x, y, hst, hyc, hys⟩ := stepMove_vert s _ _ hex
        (show 1 ≤ s.size1 by omega) (show 1 ≤ s.buffer.len by omega)
        (show s.vtop + 1 < s.buffer.len by omega)
        (show (s.vtop + 1) + (s.cy + 1 - 1) ≤ s.buffer.len by omega)
        (show s.cy + 1 - 1 < u16Mod by unfold u16Mod; omega)
      have hyc2 : y ≤ s.cy + 1 - 1 := hyc
      have hys2 : (s.vtop + 1) + y + 1 ≤ s.buffer.len := hys
      refine ⟨_, hst, hb, hw1, hh1, show y + 2 < h by omega,
        show (s.vtop + 1) + y < b.len by omega⟩
    · have hvh2 : ¬ s.size2 - 2 ≤ s.cy + 1 := hvh
      have hex : execute s Action.MoveDown = some { s with cy := s.cy + 1 } := by
        simp [execute, executeAux, hg, hvh]
      obtain ⟨x, y, hst, hyc, hys⟩ := stepMove_vert s _ _ hex
        (show 1 ≤ s.size1 by omega) (show 1 ≤ s.buffer.len by omega)
        (show s.vtop < s.buffer.len by omega)
        (show s.vtop + (s.cy + 1) ≤ s.buffer.len by omega)
        (show s.cy + 1 < u16Mod by unfold u16Mod; omega)
      have hyc2 : y ≤ s.cy + 1 := hyc
      have hys2 : s.vtop + y + 1 ≤ s.buffer.len := hys
      refine ⟨_, hst, hb, hw1, hh1, show y + 2 < h by omega,
        show s.vtop + y < b.len by omega⟩

/-- C2 (amended): starting from the editor as opened on a non-empty buffer in
a terminal of positive width and height at least 4 (so the viewport holds at
least two rows), any finite sequence of MoveUp and MoveDown actions, each
followed by the bounds pass, keeps every pass free of underflow and leaves
the absolute cursor row, scroll offset plus cursor row, within the buffer:
vtop + cy lies in the interval from 0 to the line count minus 1. -/
theorem c2_theorem (b : Buffer) (w h : Nat) (ms : List Action)
    (hw : 1 ≤ w) (hh : 4 ≤ h) (hh2 : h ≤ 65535) (hb : 1 ≤ b.len)
    (hms : ∀ a ∈ ms, a = Action.MoveUp ∨ a = Action.MoveDown) :
    ∃ t, stepMoves (Editor.init b w h) ms = some t ∧ t.buffer = b ∧
      t.vtop + t.cy + 1 ≤ b.len := by
  obtain ⟨t, hrun, hP⟩ := stepMoves_inv (moveVert_step b w h hw hh hh2) ms
    (Editor.init b w h) hms
    ⟨rfl, rfl, rfl, show 0 + 2 < h by omega, show 0 + 0 < b.len by omega⟩
  exact ⟨t, hrun, hP.1, by omega⟩

/-- Witness for C2 at a concrete buffer, size and move sequence. -/
theorem c2_witness :
    ∃ t, stepMoves (Editor.init bufABC 5 6)
        [Action.MoveDown, Action.MoveDown, Action.MoveUp] = some t ∧
      t.buffer = bufABC ∧ t.vtop + t.cy + 1 ≤ bufABC.len :=
  c2_theorem bufABC 5 6 [Action.MoveDown, Action.MoveDown, Action.MoveUp]
    (by decide) (by decide) (by decide) (by decide) (by decide)

/-- C2 counterexample: in a three-row terminal (viewport height 1) on a
one-line buffer, a single MoveDown makes the bounds pass underflow while
computing the clamped cursor row. -/
theorem c2_counterexample :
    stepMoves (Editor.init bufA 5 3) [Action.MoveDown] = none := by decide

/-- Finishing a horizontal move: after any action that leaves the cursor at
the top-left line of a buffer b, the bounds pass succeeds and re-establishes
the column facts. -/
lemma moveHoriz_finish (b : Buffer) (w : Nat) (hw : 1 ≤ w) (hb1 : 1 ≤ b.len)
    (s e : Editor) (a : Action) (hex : execute s a = some e)
    (hb : e.buffer = b) (hw1 : e.size1 = w) (hvt : e.vtop = 0) (hcy : e.cy = 0)
    (hvl : e.vleft = 0) :
    ∃ t, stepMove s a = some t ∧ (t.buffer = b ∧ t.size1 = w ∧ t.vtop = 0 ∧ t.cy = 0 ∧
      t.vleft = 0 ∧ t.cx < w ∧ (t.trueLineLen = 0 → t.cx = 0) ∧
      (0 < t.trueLineLen → t.cx < min t.trueLineLen w)) := by
  have hlb : e.buffer.len = b.len := by rw [hb]
  obtain ⟨x, hst, hx1, hx2, hx3⟩ := stepMove_horiz s e a hex
    (by omega) (by omega) (by omega)
  have hLL : e.line_length = e.trueLineLen % u16Mod := by
    simp only [Editor.line_length, Editor.viewport_line, Editor.trueLineLen,
      Editor.buffer_line, Buffer.get]
    rcases hl : e.buffer.lines[e.vtop + e.cy]? with _ | line
    · simp
    · simp
  simp only [u16Mod] at hLL
  have htl : Editor.trueLineLen { e with cx := x } = Editor.trueLineLen e := rfl
  refine ⟨{ e with cx := x }, hst, hb, hw1, hvt, hcy, hvl, show x < w by omega, ?_, ?_⟩
  · intro h0
    rw [htl] at h0
    have hz : e.line_length = 0 := by omega
    exact hx2 hz
  · intro h0
    rw [htl] at h0
    show x < min e.trueLineLen w
    rcases Nat.eq_zero_or_pos e.line_length with hz | hp
    · have hx0 := hx2 hz
      omega
    · have hxl := hx3 hp
      have hle : e.trueLineLen % 65536 ≤ e.trueLineLen := Nat.mod_le _ _
      omega

/-- One MoveLeft or MoveRight followed by the bounds pass preserves the
horizontal invariant. -/
lemma moveHoriz_step (b : Buffer) (w : Nat) (hw : 1 ≤ w) (hw2 : w ≤ 65535) (hb1 : 1 ≤ b.len) :
    ∀ s a, (s.buffer = b ∧ s.size1 = w ∧ s.vtop = 0 ∧ s.cy = 0 ∧ s.vleft = 0 ∧ s.cx < w ∧
        (s.trueLineLen = 0 → s.cx = 0) ∧ (0 < s.trueLineLen → s.cx < min s.trueLineLen w)) →
      (a = Action.MoveLeft ∨ a = Action.MoveRight) →
      ∃ t, stepMove s a = some t ∧ (t.buffer = b ∧ t.size1 = w ∧ t.vtop = 0 ∧ t.cy = 0 ∧
        t.vleft = 0 ∧ t.cx < w ∧ (t.trueLineLen = 0 → t.cx = 0) ∧
        (0 < t.trueLineLen → t.cx < min t.trueLineLen w)) := by
  rintro s a ⟨hb, hw1, hvt, hcy, hvl, hcx, _, _⟩ (rfl | rfl)
  · have hex : execute s Action.MoveLeft = some { s with cx := s.cx - 1 } := by
      simp [execute, executeAux, hvl]
    exact moveHoriz_finish b w hw hb1 s _ _ hex hb hw1 hvt hcy hvl
  · have hg : s.cx + 1 < u16Mod := by unfold u16Mod; omega
    have hex : execute s Action.MoveRight = some { s with cx := s.cx + 1 } := by
      simp [execute, executeAux, hg]
    exact moveHoriz_finish b w hw hb1 s _ _ hex hb hw1 hvt hcy hvl

/-- C6 (amended): starting from the editor as opened on a non-empty buffer
in a terminal of positive width, any finite sequence of MoveLeft and
MoveRight actions, each followed by the bounds pass, keeps the cursor
column at 0 when the current line is empty and otherwise strictly below
the minimum of the current line length and the viewport width. -/
theorem c6_theorem (b : Buffer) (w h : Nat) (ms : List Action)
    (hw : 1 ≤ w) (hw2 : w ≤ 65535) (hb : 1 ≤ b.len)
    (hms : ∀ a ∈ ms, a = Action.MoveLeft ∨ a = Action.MoveRight) :
    ∃ t, stepMoves (Editor.init b w h) ms = some t ∧
      (t.trueLineLen = 0 → t.cx = 0) ∧
      (0 < t.trueLineLen → t.cx < min t.trueLineLen w) := by
  obtain ⟨t, hrun, hP⟩ := stepMoves_inv (moveHoriz_step b w hw hw2 hb) ms
    (Editor.init b w h) hms
    ⟨rfl, rfl, rfl, rfl, rfl, show 0 < w by omega, fun _ => rfl,
      fun h0 => show 0 < min (Editor.trueLineLen (Editor.init b w h)) w by omega⟩
  exact ⟨t, hrun, hP.2.2.2.2.2.2⟩

/-- Witness for C6 at a concrete buffer, size and move sequence. -/
theorem c6_witness :
    ∃ t, stepMoves (Editor.init bufABC 5 6)
        [Action.MoveRight, Action.MoveRight, Action.MoveLeft] = some t ∧
      (t.trueLineLen = 0 → t.cx = 0) ∧
      (0 < t.trueLineLen → t.cx < min t.trueLineLen 5) :=
  c6_theorem bufABC 5 6 [Action.MoveRight, Action.MoveRight, Action.MoveLeft]
    (by decide) (by decide) (by decide) (by decide)

/-- C6 counterexample: in a zero-width terminal the bounds pass underflows
while clamping the cursor column, instead of establishing the claimed
interval. -/
theorem c6_counterexample :
    stepMoves (Editor.init bufA 0 10) [Action.MoveRight] = none := by decide

/-- Removing the element at a valid index and re-inserting the same element
at that index restores the original list. -/
lemma erase_insert_restore {α : Type} (l : List α) (y : Nat) (c : α)
    (hc : l[y]? = some c) :
    ((l.take y ++ l.drop (y + 1)).take y) ++ [c] ++ ((l.take y ++ l.drop (y + 1)).drop y) = l := by
  have hy : y < l.length := by
    rcases Nat.lt_or_ge y l.length with h | h
    · exact h
    · rw [List.getElem?_eq_none h] at hc; cases hc
  have hlen : (l.take y).length = y := by
    rw [List.length_take]; omega
  rw [List.take_left' hlen, List.drop_left' hlen]
  have hcv : c = l[y] := by
    rw [List.getElem?_eq_getElem hy] at hc
    exact (Option.some.inj hc).symm
  have hdrop : [l[y]] ++ l.drop (y + 1) = l.drop y := by
    rw [List.drop_eq_getElem_cons hy]; rfl
  rw [hcv, List.append_assoc, hdrop, List.take_append_drop]

/-- C1 (amended): with the viewport at the top of the buffer (zero scroll
offset) and the cursor strictly above the last line, DeleteCurrentLine
followed immediately by Undo restores the original line content at the
original absolute row, leaves the line count unchanged, and parks the
cursor on the same absolute buffer line. -/
theorem c1_theorem (s : Editor) (hv : s.vtop = 0) (hcy : s.cy + 1 < s.buffer.len)
    (hcy16 : s.cy < u16Mod) :
    ∃ t u, execute s Action.DeleteCurrentLine = some t ∧ execute t Action.Undo = some u ∧
      u.buffer.lines = s.buffer.lines ∧ u.buffer.len = s.buffer.len ∧
      u.buffer_line = s.buffer_line := by
  have hbl : s.buffer_line = s.cy := by simp [Editor.buffer_line, hv]
  have hL : s.buffer_line < s.buffer.len := by rw [hbl]; omega
  obtain ⟨line, hline⟩ : ∃ line, s.current_line_contents = some line :=
    ⟨_, List.getElem?_eq_getElem hL⟩
  have hrem : (s.buffer.remove_line s.buffer_line).lines =
      s.buffer.lines.take s.buffer_line ++ s.buffer.lines.drop (s.buffer_line + 1) := by
    unfold Buffer.remove_line
    rw [if_pos hL]
  have hlenl : s.buffer.lines.length = s.buffer.len := rfl
  have hremlen : (s.buffer.remove_line s.buffer_line).len = s.buffer.len - 1 := by
    show (s.buffer.remove_line s.buffer_line).lines.length = s.buffer.len - 1
    rw [hrem]
    simp only [List.length_append, List.length_take, List.length_drop, hlenl]
    omega
  have hguard : s.buffer_line < (s.buffer.remove_line s.buffer_line).len := by
    rw [hremlen, hbl]; omega
  have hrestore :
      ((s.buffer.remove_line s.buffer_line).insert_line s.buffer_line line).lines =
        s.buffer.lines := by
    unfold Buffer.insert_line
    rw [if_pos hguard]
    show (s.buffer.remove_line s.buffer_line).lines.take s.buffer_line ++ [line] ++
        (s.buffer.remove_line s.buffer_line).lines.drop s.buffer_line = s.buffer.lines
    rw [hrem]
    exact erase_insert_restore s.buffer.lines s.buffer_line line hline
  have hdel : execute s Action.DeleteCurrentLine = some { s with buffer := s.buffer.remove_line s.buffer_line, undo_actions := Action.InsertLineAt s.buffer_line s.current_line_contents :: s.undo_actions } := by
    simp only [execute, executeAux]
  refine ⟨{ s with buffer := s.buffer.remove_line s.buffer_line, undo_actions := Action.InsertLineAt s.buffer_line s.current_line_contents :: s.undo_actions }, { s with buffer := (s.buffer.remove_line s.buffer_line).insert_line s.buffer_line line, cy := s.buffer_line % u16Mod }, hdel, ?_, hrestore, ?_, ?_⟩
  · rw [show (Action.InsertLineAt s.buffer_line s.current_line_contents) = Action.InsertLineAt s.buffer_line (some line) by rw [hline]]
    simp only [execute, executeAux, List.length_cons]
  · show ((s.buffer.remove_line s.buffer_line).insert_line s.buffer_line line).lines.length =
      s.buffer.len
    rw [hrestore]
    rfl
  · show s.vtop + s.buffer_line % u16Mod = s.buffer_line
    rw [hbl, hv]
    unfold u16Mod at hcy16 ⊢
    omega

/-- Witness state for C1: a fresh editor over the two-line buffer. -/
theorem c1_witness :
    ∃ t u, execute (Editor.init bufAB 10 10) Action.DeleteCurrentLine = some t ∧
      execute t Action.Undo = some u ∧
      u.buffer.lines = (Editor.init bufAB 10 10).buffer.lines ∧
      u.buffer.len = (Editor.init bufAB 10 10).buffer.len ∧
      u.buffer_line = (Editor.init bufAB 10 10).buffer_line :=
  c1_theorem (Editor.init bufAB 10 10) rfl (by decide) (by decide)

/-- C1 counterexample: with the viewport scrolled one line down and the
cursor on the last buffer line (a position the bounds pass accepts
unchanged), DeleteCurrentLine then Undo leaves a two-line buffer (the
deleted content is not re-inserted, the count drops from 3 to 2) and parks
the cursor on absolute line 3 instead of 2. -/
theorem c1_counterexample :
    check_bounds cexC1 = some cexC1 ∧
    ((execute cexC1 Action.DeleteCurrentLine).bind fun t =>
        execute t Action.Undo).map
      (fun u => (u.buffer.lines, u.buffer.len, u.buffer_line)) =
      some ([['a'], ['b']], 2, 3) ∧
    cexC1.buffer.len = 3 ∧ cexC1.buffer_line = 2 := by decide

/-- C3: a state the bounds pass accepts unchanged, holding a single empty
line, on which DeleteCharAtCursorPos makes the underlying character
removal panic (the byte index 0 is not below the line length 0). -/
theorem c3_theorem :
    check_bounds cexC3 = some cexC3 ∧
    execute cexC3 Action.DeleteCharAtCursorPos = none := by decide

/-- C7: insert_line splices the new line in exactly when the row is a
currently valid index, and in particular a call at exactly the line count
leaves the buffer unchanged. -/
theorem c7_theorem (b : Buffer) (y : Nat) (c : List Char) :
    (b.insert_line y c).lines =
      (if y < b.len then b.lines.take y ++ [c] ++ b.lines.drop y else b.lines) ∧
    b.insert_line b.len c = b := by
  constructor
  · unfold Buffer.insert_line
    split <;> rfl
  · unfold Buffer.insert_line
    rw [if_neg (lt_irrefl _)]

/-- C5: PageDown advances the scroll offset by exactly the viewport height
when the buffer extends past the current page, and leaves the whole state
unchanged otherwise. -/
theorem c5_theorem (s : Editor) (_h2 : 2 ≤ s.size2) :
    execute s Action.PageDown =
      some (if s.vtop + s.vheight < s.buffer.len
        then { s with vtop := s.vtop + s.vheight } else s) := by
  simp only [execute, executeAux]
  split <;> rfl

/-- Witness for C5 at a concrete state (viewport height 2, three lines). -/
theorem c5_witness :
    execute (Editor.init bufABC 10 4) Action.PageDown =
      some (if (Editor.init bufABC 10 4).vtop + (Editor.init bufABC 10 4).vheight <
          (Editor.init bufABC 10 4).buffer.len
        then { Editor.init bufABC 10 4 with
                vtop := (Editor.init bufABC 10 4).vtop + (Editor.init bufABC 10 4).vheight }
        else Editor.init bufABC 10 4) :=
  c5_theorem (Editor.init bufABC 10 4) (by decide)

/-- The re-centering action always succeeds and acts on scroll offset and
cursor row exactly as recenterCode computes from the four numbers read. -/
lemma execute_center (s : Editor) :
    execute s Action.MoveLineToViewportCenter =
      some { s with
              vtop := (recenterCode s.vtop s.cy s.vheight s.buffer.len).1
              cy := (recenterCode s.vtop s.cy s.vheight s.buffer.len).2 } := by
  simp only [execute, executeAux, recenterCode]
  split
  · split <;> rfl
  · split
    · split <;> rfl
    · rfl

/-- C4 counterexample: at a bounds-valid state (viewport height 10, cursor
two rows above center, offset 12, 16 lines) the code re-centers to offset 9
while the algorithm as the claim words it would refuse and keep offset 12,
because filling the viewport from candidate offset 9 needs 19 lines. -/
theorem c4_counterexample :
    check_bounds cexC4 = some cexC4 ∧
    (execute cexC4 Action.MoveLineToViewportCenter).map Editor.vtop = some 9 ∧
    recenterClaim cexC4.vtop cexC4.cy cexC4.vheight cexC4.buffer.len = (12, 2) ∧
    (execute cexC4 Action.MoveLineToViewportCenter).map Editor.vtop ≠
      some (recenterClaim cexC4.vtop cexC4.cy cexC4.vheight cexC4.buffer.len).1 := by
  decide

/-- C4 (amended): MoveLineToViewportCenter follows the re-centering
algorithm whose scroll-down guard is the code's literal condition (the
line count exceeds current offset + distance to center), acting only on
scroll offset and cursor row. -/
theorem c4_theorem (s : Editor) (_h2 : 2 ≤ s.size2) :
    ∃ t, execute s Action.MoveLineToViewportCenter = some t ∧
      (t.vtop, t.cy) = recenterCode s.vtop s.cy s.vheight s.buffer.len ∧
      t.buffer = s.buffer ∧ t.cx = s.cx ∧ t.vleft = s.vleft ∧ t.mode = s.mode := by
  exact ⟨_, execute_center s, rfl, rfl, rfl, rfl, rfl⟩

/-- Witness for C4 at the concrete state of the counterexample. -/
theorem c4_witness :
    ∃ t, execute cexC4 Action.MoveLineToViewportCenter = some t ∧
      (t.vtop, t.cy) = recenterCode cexC4.vtop cexC4.cy cexC4.vheight cexC4.buffer.len ∧
      t.buffer = cexC4.buffer ∧ t.cx = cexC4.cx ∧ t.vleft = cexC4.vleft ∧
      t.mode = cexC4.mode :=
  c4_theorem cexC4 (by decide)

/-- C9: on a buffer shorter than the viewport with the offset near the top,
re-centering always succeeds with a non-negative scroll offset, and in the
scroll-down regime (cursor above center) the new offset is exactly the old
one minus the distance to the center, floored at zero. -/
theorem c9_theorem (s : Editor) (_h2 : 2 ≤ s.size2) (_hlen : s.buffer.len < s.vheight)
    (_htop : s.vtop ≤ s.vheight) :
    ∃ t, execute s Action.MoveLineToViewportCenter = some t ∧
      0 ≤ (t.vtop : Int) ∧
      (s.cy < s.vheight / 2 →
        t.vtop = s.vtop ∨
          (t.vtop : Int) =
            max 0 ((s.vtop : Int) - ((s.vheight / 2 - s.cy : Nat) : Int))) := by
  refine ⟨_, execute_center s, by omega, ?_⟩
  intro hcy
  have hle : s.cy ≤ s.vheight / 2 := Nat.le_of_lt hcy
  have hneg : (s.cy : Int) - ((s.vheight / 2 : Nat) : Int) =
      -(((s.vheight / 2 - s.cy : Nat) : Int)) := by
    rw [Nat.cast_sub hle]
    ring
  have hd : (s.cy : Int) - ((s.vheight / 2 : Nat) : Int) < 0 := by omega
  have hnot : ¬ (0 < (s.cy : Int) - ((s.vheight / 2 : Nat) : Int)) := by omega
  have habs : ((s.cy : Int) - ((s.vheight / 2 : Nat) : Int)).natAbs =
      s.vheight / 2 - s.cy := by
    rw [hneg, Int.natAbs_neg, Int.natAbs_ofNat]
  show (recenterCode s.vtop s.cy s.vheight s.buffer.len).1 = s.vtop ∨
    (((recenterCode s.vtop s.cy s.vheight s.buffer.len).1 : Nat) : Int) =
      max 0 ((s.vtop : Int) - ((s.vheight / 2 - s.cy : Nat) : Int))
  simp only [recenterCode, if_neg hnot, if_pos hd, habs]
  by_cases hg : s.vtop + (s.vheight / 2 - s.cy) < s.buffer.len ∧
      s.vtop - (s.vheight / 2 - s.cy) ≠ s.vtop
  · rw [if_pos hg]
    right
    omega
  · rw [if_neg hg]
    left
    rfl

/-- Witness for C9 at a concrete state (three lines, viewport height 8,
offset 2, cursor one row above the center). -/
theorem c9_witness :
    ∃ t, execute witC9 Action.MoveLineToViewportCenter = some t ∧
      0 ≤ (t.vtop : Int) ∧
      (witC9.cy < witC9.vheight / 2 →
        t.vtop = witC9.vtop ∨
          (t.vtop : Int) =
            max 0 ((witC9.vtop : Int) - ((witC9.vheight / 2 - witC9.cy : Nat) : Int))) :=
  c9_theorem witC9 (by decide) (by decide) (by decide)

/-- C8: with a pending d leader, a key other than d clears the pending
state and yields no action, the cleared state dispatches fresh through the
plain navigation keymap, and the resolving d key also clears the pending
state while yielding DeleteCurrentLine. -/
theorem c8_theorem (e : Editor) (ev : Event) (hw : e.waiting_command = some 'd')
    (hne : ∀ m, ev ≠ Event.key (KeyCode.char 'd') m) :
    handle_normal_event e ev = ({ e with waiting_command := none }, none) ∧
    (∀ ev2, handle_normal_event { e with waiting_command := none } ev2 =
      ({ e with waiting_command := none }, normalKeymap ev2)) ∧
    (∀ m, handle_normal_event e (Event.key (KeyCode.char 'd') m) =
      ({ e with waiting_command := none }, some Action.DeleteCurrentLine)) := by
  refine ⟨?_, ?_, ?_⟩
  · simp only [handle_normal_event, hw]
    have hnone : handle_waiting_command 'd' ev = none := by
      cases ev with
      | key code m =>
          cases code with
          | char c =>
              by_cases hc : c = 'd'
              · exact absurd (show Event.key (KeyCode.char c) m =
                  Event.key (KeyCode.char 'd') m by rw [hc]) (hne m)
              · simp [handle_waiting_command, hc]
          | up => rfl
          | down => rfl
          | left => rfl
          | right => rfl
          | esc => rfl
          | enter => rfl
          | home => rfl
          | endKey => rfl
          | pageUp => rfl
          | pageDown => rfl
          | otherKey => rfl
      | resize w2 h2 => rfl
      | otherEvent => rfl
    rw [hnone]
  · intro ev2
    rfl
  · intro m
    simp only [handle_normal_event, hw]
    rfl

/-- Witness for C8: pending d leader, then an x key. -/
theorem c8_witness :
    handle_normal_event witC8 (Event.key (KeyCode.char 'x') KeyModifiers.noMods) =
      ({ witC8 with waiting_command := none }, none) :=
  (c8_theorem witC8 (Event.key (KeyCode.char 'x') KeyModifiers.noMods) rfl
    (by intro m hm; injection hm with h1 h2; injection h1 with h3; exact absurd h3 (by decide))).1

/-- No action changes the stored horizontal scroll offset or the terminal
size fields, whatever the fuel. -/
lemma executeAux_frame (fuel : Nat) :
    ∀ s a t, executeAux fuel s a = some t →
      t.vleft = s.vleft ∧ t.size1 = s.size1 ∧ t.size2 = s.size2 := by
  induction fuel with
  | zero =>
      intro s a t h
      cases a
      case Undo =>
          obtain ⟨sb, s1, s2, svt, svl, scx, scy, sm, swc, sua⟩ := s
          cases sua with
          | nil =>
              injection h with h
              subst h
              exact ⟨rfl, rfl, rfl⟩
          | cons u rest => exact Option.noConfusion h
      all_goals simp only [executeAux, Option.bind_eq_some, Option.map_eq_some'] at h
      all_goals try (obtain ⟨b, hb, h⟩ := h)
      all_goals try (repeat' split at h)
      all_goals
        first
          | exact ⟨rfl, rfl, rfl⟩
          | exact Option.noConfusion h
          | (injection h with h; subst h; exact ⟨rfl, rfl, rfl⟩)
          | (subst h; exact ⟨rfl, rfl, rfl⟩)
  | succ f ih =>
      intro s a t h
      cases a
      case Undo =>
          obtain ⟨sb, s1, s2, svt, svl, scx, scy, sm, swc, sua⟩ := s
          cases sua with
          | nil =>
              injection h with h
              subst h
              exact ⟨rfl, rfl, rfl⟩
          | cons u rest =>
              replace h : executeAux f { buffer := sb, size1 := s1, size2 := s2, vtop := svt, vleft := svl, cx := scx, cy := scy, mode := sm, waiting_command := swc, undo_actions := rest } u = some t := h
              exact ih { buffer := sb, size1 := s1, size2 := s2, vtop := svt, vleft := svl, cx := scx, cy := scy, mode := sm, waiting_command := swc, undo_actions := rest } u t h
      all_goals simp only [executeAux, Option.bind_eq_some, Option.map_eq_some'] at h
      all_goals try (obtain ⟨b, hb, h⟩ := h)
      all_goals try (repeat' split at h)
      all_goals
        first
          | exact ⟨rfl, rfl, rfl⟩
          | exact Option.noConfusion h
          | (injection h with h; subst h; exact ⟨rfl, rfl, rfl⟩)
          | (subst h; exact ⟨rfl, rfl, rfl⟩)

/-- The frame fact at the entry point. -/
lemma execute_frame (s : Editor) (a : Action) (t : Editor) (h : execute s a = some t) :
    t.vleft = s.vleft ∧ t.size1 = s.size1 ∧ t.size2 = s.size2 :=
  executeAux_frame s.undo_actions.length s a t h

/-- C10: executing any action leaves the horizontal scroll offset vleft
unchanged, and the editor starts with vleft = 0, so the absolute buffer
column always coincides with the cursor column. -/
theorem c10_theorem :
    (∀ s a, ((execute s a).getD s).vleft = s.vleft) ∧
      ∀ b w h, (Editor.init b w h).vleft = 0 := by
  constructor
  · intro s a
    cases hx : execute s a with
    | none => rfl
    | some t =>
        simp only [Option.getD_some]
        exact (execute_frame s a t hx).1
  · intro b w h
    rfl

end RustEditor
